import Mathlib

/-!
Shallow embedding of the review-scheduling core of `dsa_flashcards.py`.

The SQLite database is modelled as explicit state: the `cards` table is a
list of `CardRow` (rowid order = insertion order, `id` taken from an
autoincrement counter), the `scheduling` table is a list of `SchedRow`
(its `card_id` column is the table's INTEGER PRIMARY KEY, so the table
scan order is ascending `card_id`; the SQL `ORDER BY s.due ASC LIMIT 1`
queries are modelled as taking the minimum of the joined rows under the
lexicographic key (due, card_id), with SQLite's NULLs-first ASC ordering
on `due`).  Timestamps are integers (ISO8601 UTC strings compare
lexicographically like their timestamps), `ease`/`interval` are rationals,
and `random.choice(deck)` is modelled by an extra index argument `rix`
(the chosen element is `deck[rix % len(deck)]`; on an empty deck it
raises, modelled as the `crash` outcome).  Python exceptions such as the
`IndexError` of `random.choice([])` or a `NameError` are modelled by the
`Outcome.crash` constructor; `print` logging of the stale-row warning is
modelled by a boolean flag in the result.
-/

/-- A card definition as loaded from the JSON deck file (content fields
other than the identity, deck name and display name are irrelevant to the
engine and omitted). -/
structure CardData where
  card_uuid : String
  deck_name : String
  card_name : String
deriving DecidableEq, Repr, Inhabited

/-- A row of the `cards` table. -/
structure CardRow where
  id : Nat
  card_uuid : String
  deck_name : String
  card_name : String
deriving DecidableEq, Repr

/-- A row of the `scheduling` table (`due TEXT` is nullable). -/
structure SchedRow where
  card_id : Nat
  interval : ℚ
  repetitions : Nat
  ease : ℚ
  due : Option Int
deriving DecidableEq, Repr

/-- An `anki_sm_2.Card` scheduling value as the program uses it. -/
structure SchedCard where
  interval : ℚ
  repetitions : Nat
  ease : ℚ
  due : Option Int
deriving DecidableEq, Repr

/-- The SQLite database state. -/
structure Db where
  cards : List CardRow
  scheduling : List SchedRow
  nextId : Nat
deriving DecidableEq, Repr

/-- Result of a selection operation: a card with its scheduling state, a
"not found" result (`get_card_by_name` returning `(None, None)`), or an
uncaught Python exception. -/
inductive Outcome where
  | ok (card : CardData) (sched : SchedCard)
  | notFound
  | crash
deriving DecidableEq, Repr

/-- `SELECT interval, repetitions, ease, due FROM scheduling WHERE card_id = ?`
followed by `fetchone`. -/
def findSched (db : Db) (cid : Nat) : Option SchedRow :=
  db.scheduling.find? (fun s => s.card_id == cid)

/-- Building a scheduler card from a fetched row:
`due_dt = datetime.fromisoformat(due_str) if due_str else now`. -/
def rowToCard (now : Int) (s : SchedRow) : SchedCard :=
  ⟨s.interval, s.repetitions, s.ease, some (s.due.getD now)⟩

/-- The freshly initialised scheduling card
(`interval=0, repetitions=0, ease=2.5, due=now`). -/
def seedCard (now : Int) : SchedCard :=
  ⟨0, 0, 5/2, some now⟩

/-- The scheduling row inserted for a freshly initialised card. -/
def seedRow (cid : Nat) (now : Int) : SchedRow :=
  ⟨cid, 0, 0, 5/2, some now⟩

/-- `INSERT INTO scheduling (card_id, interval, repetitions, ease, due)`
with the seed values. -/
def insertSeed (db : Db) (cid : Nat) (now : Int) : Db :=
  { db with scheduling := db.scheduling ++ [seedRow cid now] }

/-- `SELECT id FROM cards WHERE card_uuid = ?`; when absent,
`INSERT INTO cards (card_uuid, deck_name, card_name)` and take
`cursor.lastrowid`.  Returns the card's rowid and the updated state. -/
def ensureCardRow (c : CardData) (db : Db) : Nat × Db :=
  match db.cards.find? (fun r => r.card_uuid == c.card_uuid) with
  | some r => (r.id, db)
  | none =>
      (db.nextId,
       { db with
           cards := db.cards ++ [⟨db.nextId, c.card_uuid, c.deck_name, c.card_name⟩],
           nextId := db.nextId + 1 })

/-- `FROM cards c JOIN scheduling s ON c.id = s.card_id`, in scheduling
scan order. -/
def joinRows (db : Db) : List (CardRow × SchedRow) :=
  db.scheduling.filterMap
    (fun s => (db.cards.find? (fun c => c.id == s.card_id)).map (fun c => (c, s)))

/-- Sort key of a joined row for `ORDER BY s.due ASC`: the due column
first (SQLite sorts NULLs first in ASC order), ties broken by the
scheduling table's scan order, which is its rowid `card_id`. -/
def rowKey (r : CardRow × SchedRow) : Option Int × Nat :=
  (r.2.due, r.2.card_id)

/-- Strict ordering on sort keys: NULL before any timestamp, then the
timestamp, then the rowid. -/
def keyLt (a b : Option Int × Nat) : Bool :=
  match a.1, b.1 with
  | none, none => decide (a.2 < b.2)
  | none, some _ => true
  | some _, none => false
  | some x, some y => decide (x < y) || (decide (x = y) && decide (a.2 < b.2))

/-- First minimal row (under `keyLt` on `rowKey`) of `m :: rs`. -/
def minRowFrom (m : CardRow × SchedRow) : List (CardRow × SchedRow) → CardRow × SchedRow
  | [] => m
  | r :: rs => if keyLt (rowKey r) (rowKey m) then minRowFrom r rs else minRowFrom m rs

/-- `ORDER BY s.due ASC LIMIT 1` over a list of joined rows. -/
def minRow : List (CardRow × SchedRow) → Option (CardRow × SchedRow)
  | [] => none
  | r :: rs => some (minRowFrom r rs)

/-- The joined rows satisfying `s.due IS NOT NULL AND s.due <= now`. -/
def dueJoinRows (db : Db) (now : Int) : List (CardRow × SchedRow) :=
  (joinRows db).filter (fun r => match r.2.due with | some d => decide (d ≤ now) | none => false)

/-- The row returned by the first query of `anki_select_card`:
smallest-due joined row among those with a non-null `due <= now`. -/
def minDueRow (db : Db) (now : Int) : Option (CardRow × SchedRow) :=
  minRow (dueJoinRows db now)

/-- The secondary query of `anki_select_card` (lines 200-222): the
smallest-due joined row over all scheduling rows regardless of due-ness;
if its card is in the deck it is returned, otherwise the already chosen
random card is returned with a fresh initial scheduling value. -/
def ankiSecondary (deck : List CardData) (db1 : Db) (now : Int) (pick : CardData) : Outcome :=
  match minRow (joinRows db1) with
  | some r =>
      match deck.find? (fun c => c.card_uuid == r.1.card_uuid) with
      | some cd => Outcome.ok cd (rowToCard now r.2)
      | none => Outcome.ok pick (seedCard now)
  | none => Outcome.ok pick (seedCard now)

/-- Lines 172-222 of the fallback path, for an already picked random
card: ensure its `cards` row, seed-and-return its scheduling row when it
has none, otherwise run the secondary query.  `w` records whether the
stale-row warning was printed earlier. -/
def ankiFallbackCore (deck : List CardData) (pick : CardData) (db : Db) (now : Int) (w : Bool) :
    Outcome × Db × Bool :=
  let e := ensureCardRow pick db
  match findSched e.2 e.1 with
  | some _ => (ankiSecondary deck e.2 now pick, e.2, w)
  | none => (Outcome.ok pick (seedCard now), insertSeed e.2 e.1 now, w)

/-- The fallback path of `anki_select_card` (lines 168-222):
`random.choice(deck)` (an IndexError on an empty deck), then the rest of
the fallback on the picked card. -/
def ankiFallback (deck : List CardData) (db : Db) (now : Int) (rix : Nat) (w : Bool) :
    Outcome × Db × Bool :=
  match deck with
  | [] => (Outcome.crash, db, w)
  | _ :: _ => ankiFallbackCore deck (deck.getD (rix % deck.length) default) db now w

/-- `anki_select_card(deck, db_path)` (lines 128-222).  The first query
takes the smallest-due row with `due <= now` over the whole store; when
its card is in the deck it is returned with its stored state; when not,
a warning is printed only if the row's `deck_name` equals
`deck[0]['deck_name']` (an IndexError on an empty deck) and control
falls through to the random fallback. -/
def anki_select_card (deck : List CardData) (db : Db) (now : Int) (rix : Nat) :
    Outcome × Db × Bool :=
  match minDueRow db now with
  | some r =>
      match deck.find? (fun c => c.card_uuid == r.1.card_uuid) with
      | some cd => (Outcome.ok cd (rowToCard now r.2), db, false)
      | none =>
          match deck.head? with
          | none => (Outcome.crash, db, false)
          | some c0 => ankiFallback deck db now rix (r.1.deck_name == c0.deck_name)
  | none => ankiFallback deck db now rix false

/-- Lines 285-325 of `random_select_card`, for an already picked card:
ensure its `cards` row, return its stored scheduling row if present,
otherwise insert and return the seed state. -/
def randomCore (pick : CardData) (db : Db) (now : Int) : Outcome × Db :=
  let e := ensureCardRow pick db
  match findSched e.2 e.1 with
  | some s => (Outcome.ok pick (rowToCard now s), e.2)
  | none => (Outcome.ok pick (seedCard now), insertSeed e.2 e.1 now)

/-- `random_select_card(deck, db_path)` (lines 283-325). -/
def random_select_card (deck : List CardData) (db : Db) (now : Int) (rix : Nat) :
    Outcome × Db :=
  match deck with
  | [] => (Outcome.crash, db)
  | _ :: _ => randomCore (deck.getD (rix % deck.length) default) db now

/-- Python's `str.lower()` on one character (ASCII, which covers the
card names this tool handles). -/
def lowerChar (c : Char) : Char :=
  if 65 ≤ c.toNat ∧ c.toNat ≤ 90 then Char.ofNat (c.toNat + 32) else c

/-- Python's `str.lower()`. -/
def lowerStr (s : String) : String :=
  ⟨s.data.map lowerChar⟩

/-- `get_card_by_name(deck, card_name, db_path)` (lines 327-375).  The
branch for a card with no scheduling row reads the local variables
`interval`, `repetitions`, `ease`, `due_dt` which are unbound there, so
it raises a `NameError`, modelled as `crash` (the `cards` insert that may
precede it has already been committed). -/
def get_card_by_name (deck : List CardData) (name : String) (db : Db) (now : Int) :
    Outcome × Db :=
  match deck.find? (fun c => lowerStr c.card_name == lowerStr name) with
  | none => (Outcome.notFound, db)
  | some cardData =>
      let e := ensureCardRow cardData db
      match findSched e.2 e.1 with
      | some s => (Outcome.ok cardData (rowToCard now s), e.2)
      | none => (Outcome.crash, e.2)

/-- The row written by `update_card_in_db` for card rowid `cid`. -/
def updRow (cid : Nat) (c : SchedCard) : SchedRow :=
  ⟨cid, c.interval, c.repetitions, c.ease, c.due⟩

/-- The per-row effect of the SQL `UPDATE scheduling SET ... WHERE
card_id = ?`: the matching row is overwritten, the others are kept. -/
def upsertFun (cid : Nat) (c : SchedCard) (s : SchedRow) : SchedRow :=
  if s.card_id == cid then updRow cid c else s

/-- Lines 100-126 of `update_card_in_db`: `UPDATE scheduling SET ...
WHERE card_id = ?` when a row exists, otherwise `INSERT INTO scheduling
...` (create-or-replace keyed by `card_id`). -/
def upsertSchedRow (db : Db) (cid : Nat) (c : SchedCard) : Db :=
  match findSched db cid with
  | some _ => { db with scheduling := db.scheduling.map (upsertFun cid c) }
  | none => { db with scheduling := db.scheduling ++ [updRow cid c] }

/-- `update_card_in_db(card_uuid, card, db_path)` (lines 76-126):
create-or-replace the scheduling row of the card with that uuid; a no-op
(with a printed message) when the uuid has no `cards` row. -/
def update_card_in_db (uuid : String) (c : SchedCard) (db : Db) : Db :=
  match db.cards.find? (fun r => r.card_uuid == uuid) with
  | none => db
  | some r => upsertSchedRow db r.id c

/-- The four recall ratings of `anki_sm_2.Rating`. -/
inductive Rating where
  | Again
  | Hard
  | Good
  | Easy
deriving DecidableEq, Repr

/-- Modelled from the spec: the engine's minimum ease ("floored at a
minimum, e.g. 1.3"); the `anki_sm_2` library implementing the scheduler
is a dependency, not part of this repository's sources. -/
def easeFloor : ℚ := 13/10

/-- Modelled from the spec: the auditable engine configuration
`{rating: (ease_delta, interval_multiplier)}` of section 4.1 — ease is
reduced on Again, nudged down on Hard, held on Good, raised on Easy; the
interval multiplier is smaller for Hard than for Good and carries a
bonus for Easy. -/
def ratingTable : Rating → ℚ × ℚ
  | Rating.Again => (-(1/5), 0)
  | Rating.Hard => (-(3/20), 1/2)
  | Rating.Good => (0, 1)
  | Rating.Easy => (3/20, 13/10)

/-- Modelled from the spec: `evaluate_difficulty` delegates to
`anki_sm_2.Scheduler.review_card`, whose code is not in this repository;
this is the SM-2-family contract of section 4.1.  On Again: repetitions
reset to 0, interval reset to 0, ease reduced but floored; due set to
now.  Otherwise: repetitions increment, ease adjusted by the table's
delta (floored), interval grows multiplicatively from the previous
interval (or the seed value 1) times ease times the table's multiplier,
and due is set to now plus the new interval.  The ambient clock of the
library is passed explicitly as `now`. -/
def evaluate_difficulty (c : SchedCard) (r : Rating) (now : Int) : SchedCard :=
  match r with
  | Rating.Again =>
      ⟨0, 0, max easeFloor (c.ease + (ratingTable Rating.Again).1), some now⟩
  | _ =>
      let newEase := max easeFloor (c.ease + (ratingTable r).1)
      let base := max c.interval 1
      let newInterval := base * c.ease * (ratingTable r).2
      ⟨newInterval, c.repetitions + 1, newEase, some (now + ⌈newInterval⌉)⟩

/-- Result of `load_deck(deck_name)`: the parsed JSON deck, or
`sys.exit(1)` when the file is missing. -/
inductive LoadResult where
  | ok (deck : List CardData)
  | exitCode (code : Nat)
deriving DecidableEq, Repr

/-- `load_deck(deck_name)` (lines 12-18), with the filesystem modelled
as a list of (deck name, parsed deck) pairs. -/
def load_deck (fs : List (String × List CardData)) (deck_name : String) : LoadResult :=
  match fs.find? (fun p => p.1 == deck_name) with
  | none => LoadResult.exitCode 1
  | some p => LoadResult.ok p.2

/-- The at-most-one-scheduling-row-per-identity invariant of the schema:
`card_uuid TEXT UNIQUE`, `id INTEGER PRIMARY KEY AUTOINCREMENT` (so every
stored id is below the autoincrement counter), and
`card_id INTEGER PRIMARY KEY` on `scheduling`. -/
def WellKeyed (db : Db) : Prop :=
  (db.cards.map (fun r => r.card_uuid)).Nodup ∧
  (db.cards.map (fun r => r.id)).Nodup ∧
  (db.scheduling.map (fun s => s.card_id)).Nodup ∧
  ∀ r ∈ db.cards, r.id < db.nextId

/-! ### Properties of the `ORDER BY s.due ASC LIMIT 1` model -/

theorem keyLt_irrefl (a : Option Int × Nat) : keyLt a a = false := by
  obtain ⟨d, i⟩ := a
  cases d <;> simp [keyLt]

theorem keyLt_trans (a b c : Option Int × Nat) (h1 : keyLt a b = true) (h2 : keyLt b c = true) :
    keyLt a c = true := by
  obtain ⟨da, ia⟩ := a
  obtain ⟨db, ib⟩ := b
  obtain ⟨dc, ic⟩ := c
  cases da <;> cases db <;> cases dc <;> simp_all [keyLt] <;> omega

theorem keyLt_total (a b : Option Int × Nat) (h1 : keyLt a b = false) (h2 : keyLt b a = false) :
    a = b := by
  obtain ⟨da, ia⟩ := a
  obtain ⟨db, ib⟩ := b
  cases da <;> cases db <;> simp_all [keyLt] <;> omega

theorem minRowFrom_spec (rs : List (CardRow × SchedRow)) :
    ∀ m : CardRow × SchedRow,
      (minRowFrom m rs = m ∨ minRowFrom m rs ∈ rs) ∧
      keyLt (rowKey m) (rowKey (minRowFrom m rs)) = false ∧
      ∀ r ∈ rs, keyLt (rowKey r) (rowKey (minRowFrom m rs)) = false := by
  induction rs with
  | nil => exact fun m => ⟨Or.inl rfl, keyLt_irrefl _, by simp⟩
  | cons r rs ih =>
    intro m
    by_cases h : keyLt (rowKey r) (rowKey m) = true
    · have hd : minRowFrom m (r :: rs) = minRowFrom r rs := by
        simp [minRowFrom, h]
      obtain ⟨hmem, hle, hall⟩ := ih r
      rw [hd]
      refine ⟨?_, ?_, ?_⟩
      · rcases hmem with h1 | h1
        · exact Or.inr (by rw [h1]; exact List.mem_cons_self _ _)
        · exact Or.inr (List.mem_cons_of_mem _ h1)
      · cases hc : keyLt (rowKey m) (rowKey (minRowFrom r rs)) with
        | false => rfl
        | true =>
            have := keyLt_trans _ _ _ h hc
            rw [hle] at this
            exact absurd this (by simp)
      · intro s hs
        rcases List.mem_cons.mp hs with rfl | hs'
        · exact hle
        · exact hall s hs'
    · have hb : keyLt (rowKey r) (rowKey m) = false := by
        cases hx : keyLt (rowKey r) (rowKey m) with
        | false => rfl
        | true => exact absurd hx h
      have hd : minRowFrom m (r :: rs) = minRowFrom m rs := by
        simp [minRowFrom, hb]
      obtain ⟨hmem, hle, hall⟩ := ih m
      rw [hd]
      refine ⟨?_, hle, ?_⟩
      · rcases hmem with h1 | h1
        · exact Or.inl h1
        · exact Or.inr (List.mem_cons_of_mem _ h1)
      · intro s hs
        rcases List.mem_cons.mp hs with rfl | hs'
        · cases hc : keyLt (rowKey s) (rowKey (minRowFrom m rs)) with
          | false => rfl
          | true =>
              cases hmr : keyLt (rowKey (minRowFrom m rs)) (rowKey m) with
              | true =>
                  have := keyLt_trans _ _ _ hc hmr
                  rw [hb] at this
                  exact absurd this (by simp)
              | false =>
                  have hkey := keyLt_total _ _ hle hmr
                  rw [← hkey, hb] at hc
                  exact absurd hc (by simp)
        · exact hall s hs'

theorem minRow_spec (rows : List (CardRow × SchedRow)) (m : CardRow × SchedRow)
    (h : minRow rows = some m) :
    m ∈ rows ∧ ∀ r ∈ rows, keyLt (rowKey r) (rowKey m) = false := by
  cases rows with
  | nil => exact absurd h (by simp [minRow])
  | cons r rs =>
    simp only [minRow, Option.some.injEq] at h
    obtain ⟨hmem, hle, hall⟩ := minRowFrom_spec rs r
    subst h
    refine ⟨?_, ?_⟩
    · rcases hmem with h1 | h1
      · rw [h1]; exact List.mem_cons_self _ _
      · exact List.mem_cons_of_mem _ h1
    · intro s hs
      rcases List.mem_cons.mp hs with rfl | hs'
      · exact hle
      · exact hall s hs'

/-! ### Helper lemmas about the store operations -/

theorem ensureCardRow_sched (c : CardData) (db : Db) :
    (ensureCardRow c db).2.scheduling = db.scheduling := by
  unfold ensureCardRow
  split <;> rfl

theorem ensureCardRow_nextId_le (c : CardData) (db : Db) :
    db.nextId ≤ (ensureCardRow c db).2.nextId := by
  unfold ensureCardRow
  split
  · exact Nat.le_refl _
  · exact Nat.le_succ _

theorem ensureCardRow_cards_ext (c : CardData) (db : Db) :
    ∃ nc, (ensureCardRow c db).2.cards = db.cards ++ nc := by
  unfold ensureCardRow
  split
  · exact ⟨[], (List.append_nil _).symm⟩
  · exact ⟨_, rfl⟩

theorem findSched_congr (db db' : Db) (cid : Nat)
    (h : db'.scheduling = db.scheduling) : findSched db' cid = findSched db cid := by
  unfold findSched
  rw [h]

theorem findSched_ext_some (db db' : Db) (ns : List SchedRow) (cid : Nat) (s : SchedRow)
    (hext : db'.scheduling = db.scheduling ++ ns) (h : findSched db cid = some s) :
    findSched db' cid = some s := by
  unfold findSched at h ⊢
  rw [hext, List.find?_append, h]
  rfl

theorem randomCore_extends (pick : CardData) (db : Db) (now : Int) :
    ∃ nc ns, (randomCore pick db now).2.cards = db.cards ++ nc ∧
      (randomCore pick db now).2.scheduling = db.scheduling ++ ns ∧
      ∀ s ∈ ns, findSched db s.card_id = none ∧ s = seedRow s.card_id now := by
  obtain ⟨nc, hnc⟩ := ensureCardRow_cards_ext pick db
  have hsch := ensureCardRow_sched pick db
  simp only [randomCore]
  cases hs : findSched (ensureCardRow pick db).2 (ensureCardRow pick db).1 with
  | some s =>
      exact ⟨nc, [], hnc, by rw [hsch, List.append_nil], by simp⟩
  | none =>
      refine ⟨nc, [seedRow (ensureCardRow pick db).1 now], ?_, ?_, ?_⟩
      · simpa [insertSeed] using hnc
      · simp [insertSeed, hsch]
      · intro s hsmem
        rw [List.mem_singleton] at hsmem
        subst hsmem
        refine ⟨?_, rfl⟩
        rw [← findSched_congr db (ensureCardRow pick db).2 _ hsch]
        exact hs

theorem ankiFallbackCore_extends (deck : List CardData) (pick : CardData) (db : Db)
    (now : Int) (w : Bool) :
    ∃ nc ns, (ankiFallbackCore deck pick db now w).2.1.cards = db.cards ++ nc ∧
      (ankiFallbackCore deck pick db now w).2.1.scheduling = db.scheduling ++ ns ∧
      ∀ s ∈ ns, findSched db s.card_id = none ∧ s = seedRow s.card_id now := by
  obtain ⟨nc, hnc⟩ := ensureCardRow_cards_ext pick db
  have hsch := ensureCardRow_sched pick db
  simp only [ankiFallbackCore]
  cases hs : findSched (ensureCardRow pick db).2 (ensureCardRow pick db).1 with
  | some s =>
      exact ⟨nc, [], hnc, by rw [hsch, List.append_nil], by simp⟩
  | none =>
      refine ⟨nc, [seedRow (ensureCardRow pick db).1 now], ?_, ?_, ?_⟩
      · simpa [insertSeed] using hnc
      · simp [insertSeed, hsch]
      · intro s hsmem
        rw [List.mem_singleton] at hsmem
        subst hsmem
        refine ⟨?_, rfl⟩
        rw [← findSched_congr db (ensureCardRow pick db).2 _ hsch]
        exact hs

/-! ### C7: review with Again resets repetitions and does not raise ease -/

/-- C7: for every scheduling state whose ease satisfies the engine's ease
floor (`ease >= 1.3`, which holds for the seed state 2.5 and is preserved
by the engine), reviewing with rating Again yields repetitions 0 and an
ease no larger than the input ease. -/
theorem review_again_reset (c : SchedCard) (now : Int) (h : easeFloor ≤ c.ease) :
    (evaluate_difficulty c Rating.Again now).repetitions = 0 ∧
    (evaluate_difficulty c Rating.Again now).ease ≤ c.ease := by
  refine ⟨rfl, ?_⟩
  show max easeFloor (c.ease + (ratingTable Rating.Again).1) ≤ c.ease
  rw [max_le_iff]
  refine ⟨h, ?_⟩
  have h5 : (ratingTable Rating.Again).1 = -(1/5) := rfl
  rw [h5]
  linarith

/-- C7 witness: the seed state reviewed with Again at time 0. -/
theorem review_again_reset_w :
    (evaluate_difficulty ⟨0, 0, 5/2, some 0⟩ Rating.Again 0).repetitions = 0 ∧
    (evaluate_difficulty ⟨0, 0, 5/2, some 0⟩ Rating.Again 0).ease ≤ 5/2 :=
  review_again_reset ⟨0, 0, 5/2, some 0⟩ 0 (by norm_num [easeFloor])

/-! ### C8: by-name lookup is case-insensitive, absence gives not-found -/

/-- C8: by-name lookup compares display names case-insensitively (two
queries with the same lowercase form behave identically), and it returns
the `notFound` outcome exactly when no card of the deck matches. -/
theorem by_name_case_insensitive (deck : List CardData) (n1 n2 : String) (db : Db) (now : Int)
    (h : lowerStr n1 = lowerStr n2) :
    get_card_by_name deck n1 db now = get_card_by_name deck n2 db now ∧
    ((get_card_by_name deck n1 db now).1 = Outcome.notFound ↔
      ∀ c ∈ deck, lowerStr c.card_name ≠ lowerStr n1) := by
  have key : deck.find? (fun c => lowerStr c.card_name == lowerStr n1) = none ↔
      ∀ c ∈ deck, lowerStr c.card_name ≠ lowerStr n1 := by
    rw [List.find?_eq_none]
    constructor
    · intro hh c hc heq
      exact hh c hc (by simp [heq])
    · intro hh c hc hbeq
      exact hh c hc (by simpa using hbeq)
  constructor
  · simp only [get_card_by_name, h]
  · cases hf : deck.find? (fun c => lowerStr c.card_name == lowerStr n1) with
    | none =>
        simp only [get_card_by_name, hf]
        exact ⟨fun _ => key.mp hf, fun _ => trivial⟩
    | some cd =>
        simp only [get_card_by_name, hf]
        constructor
        · intro hcontra
          cases hs : findSched (ensureCardRow cd db).2 (ensureCardRow cd db).1 with
          | some s => rw [hs] at hcontra; exact absurd hcontra (by simp)
          | none => rw [hs] at hcontra; exact absurd hcontra (by simp)
        · intro hall
          have hmem := List.mem_of_find?_eq_some hf
          have hp := List.find?_some hf
          exact absurd (by simpa using hp) (hall cd hmem)

/-- C8 witness: "Two Sum" and "two sum" resolve identically against a
deck containing a card named "Two Sum". -/
theorem by_name_case_insensitive_w :
    get_card_by_name [⟨"u1", "d", "Two Sum"⟩] "Two Sum"
        ⟨[⟨1, "u1", "d", "Two Sum"⟩], [⟨1, 2, 1, 5/2, some 4⟩], 2⟩ 0 =
      get_card_by_name [⟨"u1", "d", "Two Sum"⟩] "two sum"
        ⟨[⟨1, "u1", "d", "Two Sum"⟩], [⟨1, 2, 1, 5/2, some 4⟩], 2⟩ 0 :=
  (by_name_case_insensitive [⟨"u1", "d", "Two Sum"⟩] "Two Sum" "two sum"
    ⟨[⟨1, "u1", "d", "Two Sum"⟩], [⟨1, 2, 1, 5/2, some 4⟩], 2⟩ 0 (by decide)).1

/-! ### C1: due-based selection of the smallest-due row -/

/-- C1 (amended): the due query of `anki_select_card` scans all
scheduling rows of the store (it is not restricted to the active deck);
when the smallest-due row with `due <= now` (ties broken by identity
order) belongs to a card of the active deck, that card is returned with
its stored state, the store is not mutated, and the result is the same
on every call with the same store state (it does not depend on the
random index). -/
theorem anki_due_selection (deck : List CardData) (db : Db) (now : Int)
    (crow : CardRow) (srow : SchedRow) (cd : CardData)
    (h1 : minDueRow db now = some (crow, srow))
    (h2 : deck.find? (fun c => c.card_uuid == crow.card_uuid) = some cd) :
    (crow, srow) ∈ dueJoinRows db now ∧
    (∀ r ∈ dueJoinRows db now, keyLt (rowKey r) (rowKey (crow, srow)) = false) ∧
    ∀ rix, anki_select_card deck db now rix = (Outcome.ok cd (rowToCard now srow), db, false) := by
  obtain ⟨hmem, hmin⟩ := minRow_spec _ _ h1
  refine ⟨hmem, hmin, ?_⟩
  intro rix
  simp only [anki_select_card, h1, h2]

/-- C1 witness: a store whose single scheduling row is due. -/
theorem anki_due_selection_w :
    anki_select_card [⟨"u1", "d", "A"⟩]
        ⟨[⟨1, "u1", "d", "A"⟩], [⟨1, 3, 1, 5/2, some 50⟩], 2⟩ 100 0 =
      (Outcome.ok ⟨"u1", "d", "A"⟩ ⟨3, 1, 5/2, some 50⟩,
       ⟨[⟨1, "u1", "d", "A"⟩], [⟨1, 3, 1, 5/2, some 50⟩], 2⟩, false) :=
  (anki_due_selection [⟨"u1", "d", "A"⟩]
      ⟨[⟨1, "u1", "d", "A"⟩], [⟨1, 3, 1, 5/2, some 50⟩], 2⟩ 100
      ⟨1, "u1", "d", "A"⟩ ⟨1, 3, 1, 5/2, some 50⟩ ⟨"u1", "d", "A"⟩
      (by rfl) (by rfl)).2.2 0

/-- C1 counterexample: the deck's card "A" (uuid a1) has the smallest
due among the active deck's due rows (due 12 <= now 99), yet with random
index 1 the selector returns the unseen card "B": a foreign row (uuid z1,
due 7) is the global minimum, so the due branch is abandoned for the
random fallback. -/
theorem anki_due_selection_cx :
    (dueJoinRows ⟨[⟨1, "z1", "other", "Z"⟩, ⟨2, "a1", "d", "A"⟩],
        [⟨1, 0, 0, 5/2, some 7⟩, ⟨2, 4, 2, 5/2, some 12⟩], 3⟩ 99).any
      (fun r => r.1.card_uuid == "a1") = true ∧
    ([⟨"a1", "d", "A"⟩, ⟨"b1", "d", "B"⟩] : List CardData).any
      (fun c => c.card_uuid == "a1") = true ∧
    (anki_select_card [⟨"a1", "d", "A"⟩, ⟨"b1", "d", "B"⟩]
        ⟨[⟨1, "z1", "other", "Z"⟩, ⟨2, "a1", "d", "A"⟩],
         [⟨1, 0, 0, 5/2, some 7⟩, ⟨2, 4, 2, 5/2, some 12⟩], 3⟩ 99 1).1 =
      Outcome.ok ⟨"b1", "d", "B"⟩ (seedCard 99) ∧
    (⟨"b1", "d", "B"⟩ : CardData) ≠ ⟨"a1", "d", "A"⟩ := by
  exact ⟨rfl, rfl, rfl, by decide⟩

/-! ### C2: behaviour when no card is due -/

theorem getD_mem_cons (d : CardData) (ds : List CardData) (n : Nat) :
    (d :: ds).getD (n % (d :: ds).length) default ∈ d :: ds := by
  have hlt : n % (d :: ds).length < (d :: ds).length := Nat.mod_lt _ (by simp)
  rw [List.getD_eq_getElem _ _ hlt]
  exact List.getElem_mem hlt

theorem ankiSecondary_ok (deck : List CardData) (db1 : Db) (now : Int) (pick : CardData)
    (hp : pick ∈ deck) :
    ∃ c s, ankiSecondary deck db1 now pick = Outcome.ok c s ∧ c ∈ deck := by
  unfold ankiSecondary
  cases hm : minRow (joinRows db1) with
  | none => exact ⟨_, _, rfl, hp⟩
  | some r =>
      dsimp only
      cases hf : deck.find? (fun c => c.card_uuid == r.1.card_uuid) with
      | some cd => exact ⟨_, _, rfl, List.mem_of_find?_eq_some hf⟩
      | none => exact ⟨_, _, rfl, hp⟩

theorem ankiFallbackCore_ok (deck : List CardData) (pick : CardData) (db : Db) (now : Int)
    (w : Bool) (hp : pick ∈ deck) :
    ∃ c s db2, ankiFallbackCore deck pick db now w = (Outcome.ok c s, db2, w) ∧ c ∈ deck := by
  simp only [ankiFallbackCore]
  cases hs : findSched (ensureCardRow pick db).2 (ensureCardRow pick db).1 with
  | some s0 =>
      obtain ⟨c, s, hsec, hmem⟩ := ankiSecondary_ok deck (ensureCardRow pick db).2 now pick hp
      exact ⟨c, s, _, by rw [hsec], hmem⟩
  | none => exact ⟨_, _, _, rfl, hp⟩

/-- C2 (amended): when no scheduling row has `due <= now`, the selector
runs the random fallback: it always returns a concrete card of the deck
(total over non-empty decks); if the random pick has no scheduling row it
is seeded and returned; but if the random pick already has a row, the
secondary query runs instead: the card of the globally smallest-due row
(regardless of due-ness) is returned when it is in the deck, else the
random pick with a fresh seed state — the random seed-and-return is not
the sole fallback. -/
theorem exhaustion_fallback (deck : List CardData) (db : Db) (now : Int) (rix : Nat)
    (d : CardData) (ds : List CardData) (hdeck : deck = d :: ds)
    (hnodue : minDueRow db now = none) :
    (∃ c s db2, anki_select_card deck db now rix = (Outcome.ok c s, db2, false) ∧ c ∈ deck) ∧
    (findSched (ensureCardRow (deck.getD (rix % deck.length) default) db).2
        (ensureCardRow (deck.getD (rix % deck.length) default) db).1 = none →
      anki_select_card deck db now rix =
        (Outcome.ok (deck.getD (rix % deck.length) default) (seedCard now),
         insertSeed (ensureCardRow (deck.getD (rix % deck.length) default) db).2
           (ensureCardRow (deck.getD (rix % deck.length) default) db).1 now, false)) ∧
    (∀ s0, findSched (ensureCardRow (deck.getD (rix % deck.length) default) db).2
        (ensureCardRow (deck.getD (rix % deck.length) default) db).1 = some s0 →
      anki_select_card deck db now rix =
        (ankiSecondary deck (ensureCardRow (deck.getD (rix % deck.length) default) db).2 now
           (deck.getD (rix % deck.length) default),
         (ensureCardRow (deck.getD (rix % deck.length) default) db).2, false)) := by
  subst hdeck
  have hred : anki_select_card (d :: ds) db now rix =
      ankiFallbackCore (d :: ds) ((d :: ds).getD (rix % (d :: ds).length) default) db now false := by
    simp only [anki_select_card, hnodue, ankiFallback]
  refine ⟨?_, ?_, ?_⟩
  · rw [hred]
    exact ankiFallbackCore_ok _ _ _ _ _ (getD_mem_cons d ds rix)
  · intro h
    rw [hred]
    simp only [ankiFallbackCore, h]
  · intro s0 h
    rw [hred]
    simp only [ankiFallbackCore, h]

/-- C2 witness: empty store, one-card deck — the pick is seeded and
returned. -/
theorem exhaustion_fallback_w :
    anki_select_card [⟨"w1", "d", "W"⟩] ⟨[], [], 1⟩ 0 0 =
      (Outcome.ok ⟨"w1", "d", "W"⟩ (seedCard 0),
       ⟨[⟨1, "w1", "d", "W"⟩], [⟨1, 0, 0, 5/2, some 0⟩], 2⟩, false) :=
  (exhaustion_fallback [⟨"w1", "d", "W"⟩] ⟨[], [], 1⟩ 0 0 ⟨"w1", "d", "W"⟩ [] rfl rfl).2.1 rfl

/-- C2 counterexample: no card is due (due 200 and 300, now 100), the
random pick is "Y" (index 1) which already has state, yet the selector
returns "X" (the globally smallest-due row) instead of returning the
random pick unmodified: the secondary branch exists. -/
theorem exhaustion_fallback_cx :
    dueJoinRows ⟨[⟨1, "uX", "d", "X"⟩, ⟨2, "uY", "d", "Y"⟩],
        [⟨1, 0, 0, 5/2, some 200⟩, ⟨2, 0, 0, 5/2, some 300⟩], 3⟩ 100 = [] ∧
    ([⟨"uX", "d", "X"⟩, ⟨"uY", "d", "Y"⟩] : List CardData).getD (1 % 2) default =
      ⟨"uY", "d", "Y"⟩ ∧
    (anki_select_card [⟨"uX", "d", "X"⟩, ⟨"uY", "d", "Y"⟩]
        ⟨[⟨1, "uX", "d", "X"⟩, ⟨2, "uY", "d", "Y"⟩],
         [⟨1, 0, 0, 5/2, some 200⟩, ⟨2, 0, 0, 5/2, some 300⟩], 3⟩ 100 1).1 =
      Outcome.ok ⟨"uX", "d", "X"⟩ ⟨0, 0, 5/2, some 200⟩ ∧
    (⟨"uX", "d", "X"⟩ : CardData) ≠ ⟨"uY", "d", "Y"⟩ :=
  ⟨rfl, rfl, rfl, by decide⟩

/-! ### C3: by-name lookup of a card with no scheduling row -/

/-- C3 (code bug): when the requested name matches a card that has no
scheduling row, `get_card_by_name` reads the local variables `interval`,
`repetitions`, `ease` and `due_dt`, which are unbound in that branch
(lines 363-368), raising a `NameError` instead of creating the seed
state `interval=0, repetitions=0, ease=2.5, due=now`: the call crashes
(after the possible `cards`-row insert has already been committed). -/
theorem by_name_unseen_crashes (deck : List CardData) (name : String) (db : Db) (now : Int)
    (cd : CardData)
    (h1 : deck.find? (fun c => lowerStr c.card_name == lowerStr name) = some cd)
    (h2 : findSched (ensureCardRow cd db).2 (ensureCardRow cd db).1 = none) :
    get_card_by_name deck name db now = (Outcome.crash, (ensureCardRow cd db).2) := by
  simp only [get_card_by_name, h1, h2]

/-- C3 witness: a deck containing "Two Sum", looked up as "two sum",
against an empty store. -/
theorem by_name_unseen_crashes_w :
    get_card_by_name [⟨"u1", "neetcode150", "Two Sum"⟩] "two sum" ⟨[], [], 1⟩ 0 =
      (Outcome.crash, ⟨[⟨1, "u1", "neetcode150", "Two Sum"⟩], [], 2⟩) :=
  by_name_unseen_crashes [⟨"u1", "neetcode150", "Two Sum"⟩] "two sum" ⟨[], [], 1⟩ 0
    ⟨"u1", "neetcode150", "Two Sum"⟩ (by rfl) (by rfl)

/-! ### C4: stale scheduling rows -/

/-- C4 (amended): when the smallest-due row's card identity is absent
from the current deck, the run is non-fatal but the row is not merely
excluded: the warning is printed only when the stale row's `deck_name`
equals the first deck card's `deck_name`, and selection falls through to
the random fallback, which returns some card of the deck with the same
warning flag — not necessarily another in-deck card that is due. -/
theorem stale_row_fallthrough (deck : List CardData) (db : Db) (now : Int) (rix : Nat)
    (crow : CardRow) (srow : SchedRow) (c0 : CardData) (ds : List CardData)
    (hdeck : deck = c0 :: ds)
    (h1 : minDueRow db now = some (crow, srow))
    (h2 : deck.find? (fun c => c.card_uuid == crow.card_uuid) = none) :
    anki_select_card deck db now rix =
      ankiFallbackCore deck (deck.getD (rix % deck.length) default) db now
        (crow.deck_name == c0.deck_name) ∧
    ∃ c s db2, anki_select_card deck db now rix =
      (Outcome.ok c s, db2, crow.deck_name == c0.deck_name) ∧ c ∈ deck := by
  subst hdeck
  have hred : anki_select_card (c0 :: ds) db now rix =
      ankiFallbackCore (c0 :: ds) ((c0 :: ds).getD (rix % (c0 :: ds).length) default) db now
        (crow.deck_name == c0.deck_name) := by
    simp only [anki_select_card, h1, h2, List.head?_cons, ankiFallback]
  refine ⟨hred, ?_⟩
  rw [hred]
  exact ankiFallbackCore_ok _ _ _ _ _ (getD_mem_cons c0 ds rix)

/-- C4 witness: a store whose smallest-due row (uuid uZ, deck "other")
is not in the deck; selection equals the fallback with no warning
printed. -/
theorem stale_row_fallthrough_w :
    anki_select_card [⟨"uX", "d", "X"⟩, ⟨"uY", "d", "Y"⟩]
        ⟨[⟨1, "uZ", "other", "Z"⟩, ⟨2, "uX", "d", "X"⟩],
         [⟨1, 0, 0, 5/2, some 5⟩, ⟨2, 0, 0, 5/2, some 10⟩], 3⟩ 100 1 =
      ankiFallbackCore [⟨"uX", "d", "X"⟩, ⟨"uY", "d", "Y"⟩] ⟨"uY", "d", "Y"⟩
        ⟨[⟨1, "uZ", "other", "Z"⟩, ⟨2, "uX", "d", "X"⟩],
         [⟨1, 0, 0, 5/2, some 5⟩, ⟨2, 0, 0, 5/2, some 10⟩], 3⟩ 100 false :=
  (stale_row_fallthrough [⟨"uX", "d", "X"⟩, ⟨"uY", "d", "Y"⟩]
    ⟨[⟨1, "uZ", "other", "Z"⟩, ⟨2, "uX", "d", "X"⟩],
     [⟨1, 0, 0, 5/2, some 5⟩, ⟨2, 0, 0, 5/2, some 10⟩], 3⟩ 100 1
    ⟨1, "uZ", "other", "Z"⟩ ⟨1, 0, 0, 5/2, some 5⟩ ⟨"uX", "d", "X"⟩ [⟨"uY", "d", "Y"⟩]
    rfl (by rfl) (by rfl)).1

/-- C4 counterexample: the store holds a stale row (uuid s1, not in the
deck, due 3) and an in-deck due row (uuid p1, due 20, now 50); the claim
says the stale row is logged and excluded so that card p1 is selected,
but the selector falls through to the random fallback, seeds the unseen
card q1 and returns it, and the warning flag is false (the stale row's
deck_name "misc" differs from the active deck's "algo"). -/
theorem stale_row_fallthrough_cx :
    ([⟨"p1", "algo", "P"⟩, ⟨"q1", "algo", "Q"⟩] : List CardData).all
      (fun c => c.card_uuid != "s1") = true ∧
    (dueJoinRows ⟨[⟨1, "s1", "misc", "S"⟩, ⟨2, "p1", "algo", "P"⟩],
        [⟨1, 1, 1, 5/2, some 3⟩, ⟨2, 2, 2, 5/2, some 20⟩], 3⟩ 50).any
      (fun r => r.1.card_uuid == "p1") = true ∧
    ([⟨"p1", "algo", "P"⟩, ⟨"q1", "algo", "Q"⟩] : List CardData).any
      (fun c => c.card_uuid == "p1") = true ∧
    anki_select_card [⟨"p1", "algo", "P"⟩, ⟨"q1", "algo", "Q"⟩]
        ⟨[⟨1, "s1", "misc", "S"⟩, ⟨2, "p1", "algo", "P"⟩],
         [⟨1, 1, 1, 5/2, some 3⟩, ⟨2, 2, 2, 5/2, some 20⟩], 3⟩ 50 1 =
      (Outcome.ok ⟨"q1", "algo", "Q"⟩ (seedCard 50),
       ⟨[⟨1, "s1", "misc", "S"⟩, ⟨2, "p1", "algo", "P"⟩, ⟨3, "q1", "algo", "Q"⟩],
        [⟨1, 1, 1, 5/2, some 3⟩, ⟨2, 2, 2, 5/2, some 20⟩, ⟨3, 0, 0, 5/2, some 50⟩], 4⟩,
       false) ∧
    (⟨"q1", "algo", "Q"⟩ : CardData) ≠ ⟨"p1", "algo", "P"⟩ :=
  ⟨rfl, rfl, rfl, rfl, by decide⟩

/-! ### C5: first access creates exactly the seed state -/

/-- C5: for a card with no scheduling row, the first access by the
pure-random policy, or by the due-based fallback when nothing is due,
creates exactly the seed state `interval=0, repetitions=0, ease=2.5,
due=now` and returns it. -/
theorem first_access_seeds (deck : List CardData) (db : Db) (now : Int) (rix : Nat)
    (d : CardData) (ds : List CardData) (hdeck : deck = d :: ds)
    (huns : findSched (ensureCardRow (deck.getD (rix % deck.length) default) db).2
        (ensureCardRow (deck.getD (rix % deck.length) default) db).1 = none) :
    random_select_card deck db now rix =
      (Outcome.ok (deck.getD (rix % deck.length) default) (seedCard now),
       insertSeed (ensureCardRow (deck.getD (rix % deck.length) default) db).2
         (ensureCardRow (deck.getD (rix % deck.length) default) db).1 now) ∧
    (minDueRow db now = none →
      anki_select_card deck db now rix =
        (Outcome.ok (deck.getD (rix % deck.length) default) (seedCard now),
         insertSeed (ensureCardRow (deck.getD (rix % deck.length) default) db).2
           (ensureCardRow (deck.getD (rix % deck.length) default) db).1 now, false)) := by
  subst hdeck
  constructor
  · simp only [random_select_card, randomCore, huns]
  · intro h
    simp only [anki_select_card, h, ankiFallback, ankiFallbackCore, huns]

/-- C5 witness: an unseen single-card deck, seeded at time 7 by the
pure-random policy. -/
theorem first_access_seeds_w :
    random_select_card [⟨"s1", "d", "S"⟩] ⟨[], [], 1⟩ 7 0 =
      (Outcome.ok ⟨"s1", "d", "S"⟩ (seedCard 7),
       ⟨[⟨1, "s1", "d", "S"⟩], [⟨1, 0, 0, 5/2, some 7⟩], 2⟩) :=
  (first_access_seeds [⟨"s1", "d", "S"⟩] ⟨[], [], 1⟩ 7 0 ⟨"s1", "d", "S"⟩ [] rfl (by rfl)).1

/-! ### C9: configuration and input errors -/

/-- C9 (amended): an unknown card name yields the typed `notFound`
outcome with the store unchanged, and a missing deck source terminates
via `sys.exit(1)`; but an empty deck is not validated: both selectors
raise an uncaught exception on it (`random.choice([])`) rather than
returning a typed outcome. -/
theorem typed_error_outcomes (fs : List (String × List CardData)) (dn name : String)
    (deck : List CardData) (db : Db) (now : Int) (rix : Nat)
    (hmiss : fs.find? (fun p => p.1 == dn) = none)
    (hnomatch : deck.find? (fun c => lowerStr c.card_name == lowerStr name) = none) :
    load_deck fs dn = LoadResult.exitCode 1 ∧
    get_card_by_name deck name db now = (Outcome.notFound, db) ∧
    (anki_select_card [] db now rix).1 = Outcome.crash ∧
    random_select_card [] db now rix = (Outcome.crash, db) := by
  refine ⟨?_, ?_, ?_, rfl⟩
  · simp only [load_deck, hmiss]
  · simp only [get_card_by_name, hnomatch]
  · simp only [anki_select_card]
    cases hm : minDueRow db now with
    | none => rfl
    | some r => rfl

/-- C9 witness: a missing deck file, an unknown card name and the empty
deck, all at concrete inputs. -/
theorem typed_error_outcomes_w :
    load_deck [("algos", [⟨"u1", "algos", "A"⟩])] "missing" = LoadResult.exitCode 1 ∧
    get_card_by_name [⟨"u1", "algos", "A"⟩] "nope" ⟨[], [], 1⟩ 0 =
      (Outcome.notFound, ⟨[], [], 1⟩) ∧
    (anki_select_card [] ⟨[], [], 1⟩ 0 0).1 = Outcome.crash ∧
    random_select_card [] ⟨[], [], 1⟩ 0 0 = (Outcome.crash, ⟨[], [], 1⟩) :=
  typed_error_outcomes [("algos", [⟨"u1", "algos", "A"⟩])] "missing" "nope"
    [⟨"u1", "algos", "A"⟩] ⟨[], [], 1⟩ 0 0 (by rfl) (by rfl)

/-- C9 counterexample: on an empty deck both selectors produce the
crash outcome (`random.choice` raises IndexError), not a typed
"not found"/"invalid input" outcome. -/
theorem typed_error_outcomes_cx :
    (anki_select_card [] ⟨[], [], 1⟩ 5 0).1 = Outcome.crash ∧
    (random_select_card [] ⟨[], [], 1⟩ 5 0).1 = Outcome.crash ∧
    Outcome.crash ≠ Outcome.notFound :=
  ⟨rfl, rfl, by decide⟩

/-! ### C10: selectors never modify an existing scheduling row -/

theorem ankiFallback_extends (deck : List CardData) (db : Db) (now : Int) (rix : Nat) (w : Bool) :
    ∃ nc ns, (ankiFallback deck db now rix w).2.1.cards = db.cards ++ nc ∧
      (ankiFallback deck db now rix w).2.1.scheduling = db.scheduling ++ ns ∧
      ∀ s ∈ ns, findSched db s.card_id = none ∧ s = seedRow s.card_id now := by
  cases deck with
  | nil => exact ⟨[], [], by simp [ankiFallback], by simp [ankiFallback], by simp⟩
  | cons d ds =>
      simpa only [ankiFallback] using
        ankiFallbackCore_extends (d :: ds) ((d :: ds).getD (rix % (d :: ds).length) default)
          db now w

theorem random_select_card_extends (deck : List CardData) (db : Db) (now : Int) (rix : Nat) :
    ∃ nc ns, (random_select_card deck db now rix).2.cards = db.cards ++ nc ∧
      (random_select_card deck db now rix).2.scheduling = db.scheduling ++ ns ∧
      ∀ s ∈ ns, findSched db s.card_id = none ∧ s = seedRow s.card_id now := by
  cases deck with
  | nil => exact ⟨[], [], by simp [random_select_card], by simp [random_select_card], by simp⟩
  | cons d ds =>
      simpa only [random_select_card] using
        randomCore_extends ((d :: ds).getD (rix % (d :: ds).length) default) db now

theorem anki_select_card_extends (deck : List CardData) (db : Db) (now : Int) (rix : Nat) :
    ∃ nc ns, (anki_select_card deck db now rix).2.1.cards = db.cards ++ nc ∧
      (anki_select_card deck db now rix).2.1.scheduling = db.scheduling ++ ns ∧
      ∀ s ∈ ns, findSched db s.card_id = none ∧ s = seedRow s.card_id now := by
  simp only [anki_select_card]
  cases hm : minDueRow db now with
  | none => exact ankiFallback_extends deck db now rix false
  | some r =>
      dsimp only
      cases hf : deck.find? (fun c => c.card_uuid == r.1.card_uuid) with
      | some cd => exact ⟨[], [], by simp, by simp, by simp⟩
      | none =>
          cases hh : deck.head? with
          | none => exact ⟨[], [], by simp, by simp, by simp⟩
          | some c0 => exact ankiFallback_extends deck db now rix _

/-- C10: neither selector ever modifies an existing scheduling row: the
resulting store only appends new `cards` rows and freshly seeded
scheduling rows for cards that had none, and every previously stored
scheduling row is found unchanged afterwards. -/
theorem selection_no_overwrite (deck : List CardData) (db : Db) (now : Int) (rix : Nat) :
    (∃ nc ns, (anki_select_card deck db now rix).2.1.cards = db.cards ++ nc ∧
      (anki_select_card deck db now rix).2.1.scheduling = db.scheduling ++ ns ∧
      ∀ s ∈ ns, findSched db s.card_id = none ∧ s = seedRow s.card_id now) ∧
    (∃ nc ns, (random_select_card deck db now rix).2.cards = db.cards ++ nc ∧
      (random_select_card deck db now rix).2.scheduling = db.scheduling ++ ns ∧
      ∀ s ∈ ns, findSched db s.card_id = none ∧ s = seedRow s.card_id now) ∧
    ∀ cid s0, findSched db cid = some s0 →
      findSched (anki_select_card deck db now rix).2.1 cid = some s0 ∧
      findSched (random_select_card deck db now rix).2 cid = some s0 := by
  have ha := anki_select_card_extends deck db now rix
  have hr := random_select_card_extends deck db now rix
  refine ⟨ha, hr, ?_⟩
  intro cid s0 h
  obtain ⟨nc, ns, hc, hs, hprop⟩ := ha
  obtain ⟨nc2, ns2, hc2, hs2, hprop2⟩ := hr
  exact ⟨findSched_ext_some db _ ns cid s0 hs h, findSched_ext_some db _ ns2 cid s0 hs2 h⟩

/-- C10 witness: the stored row of the already-seen card (id 2) is
unchanged by both selectors while the unseen card "Y" gets seeded. -/
theorem selection_no_overwrite_w :
    findSched (anki_select_card [⟨"uX", "d", "X"⟩, ⟨"uY", "d", "Y"⟩]
        ⟨[⟨2, "uX", "d", "X"⟩], [⟨2, 4, 1, 5/2, some 10⟩], 3⟩ 100 1).2.1 2 =
      some ⟨2, 4, 1, 5/2, some 10⟩ ∧
    findSched (random_select_card [⟨"uX", "d", "X"⟩, ⟨"uY", "d", "Y"⟩]
        ⟨[⟨2, "uX", "d", "X"⟩], [⟨2, 4, 1, 5/2, some 10⟩], 3⟩ 100 1).2 2 =
      some ⟨2, 4, 1, 5/2, some 10⟩ :=
  (selection_no_overwrite [⟨"uX", "d", "X"⟩, ⟨"uY", "d", "Y"⟩]
    ⟨[⟨2, "uX", "d", "X"⟩], [⟨2, 4, 1, 5/2, some 10⟩], 3⟩ 100 1).2.2 2
    ⟨2, 4, 1, 5/2, some 10⟩ (by rfl)

/-! ### C6: at most one scheduling row per identity -/

theorem map_id_of_mem {α : Type} (f : α → α) (l : List α) (h : ∀ x ∈ l, f x = x) :
    l.map f = l := by
  induction l with
  | nil => rfl
  | cons a l ih =>
      rw [List.map_cons, h a (List.mem_cons_self _ _),
        ih (fun x hx => h x (List.mem_cons_of_mem _ hx))]

theorem find?_map_pred {α : Type} (p : α → Bool) (f : α → α) (l : List α)
    (hp : ∀ x, p (f x) = p x) :
    (l.map f).find? p = (l.find? p).map f := by
  induction l with
  | nil => rfl
  | cons a l ih =>
      cases ha : p a with
      | true =>
          rw [List.map_cons, List.find?_cons_of_pos _ (by rw [hp a]; exact ha),
            List.find?_cons_of_pos _ ha]
          rfl
      | false =>
          rw [List.map_cons, List.find?_cons_of_neg _ (by rw [hp a, ha]; simp),
            List.find?_cons_of_neg _ (by rw [ha]; simp), ih]

theorem upsertSchedRow_cards (db : Db) (cid : Nat) (c : SchedCard) :
    (upsertSchedRow db cid c).cards = db.cards := by
  unfold upsertSchedRow
  split <;> rfl

theorem upsertFun_pred (cid : Nat) (c : SchedCard) (x : SchedRow) :
    ((upsertFun cid c x).card_id == cid) = (x.card_id == cid) := by
  unfold upsertFun
  by_cases hc : x.card_id = cid
  · simp [hc, updRow]
  · simp [hc]

theorem upsertFun_idem (cid : Nat) (c : SchedCard) (x : SchedRow) :
    upsertFun cid c (upsertFun cid c x) = upsertFun cid c x := by
  unfold upsertFun
  by_cases hc : x.card_id = cid
  · simp [hc, updRow]
  · simp [hc]

theorem upsertSchedRow_idem (db : Db) (cid : Nat) (c : SchedCard) :
    upsertSchedRow (upsertSchedRow db cid c) cid c = upsertSchedRow db cid c := by
  cases hs : findSched db cid with
  | some s0 =>
      have h1 : upsertSchedRow db cid c =
          { db with scheduling := db.scheduling.map (upsertFun cid c) } := by
        unfold upsertSchedRow
        rw [hs]
      have h2 : findSched { db with scheduling := db.scheduling.map (upsertFun cid c) } cid =
          some (upsertFun cid c s0) := by
        unfold findSched at hs ⊢
        dsimp only
        rw [find?_map_pred _ _ _ (upsertFun_pred cid c), hs]
        rfl
      rw [h1]
      unfold upsertSchedRow
      rw [h2]
      dsimp only
      congr 1
      apply map_id_of_mem
      intro y hy
      obtain ⟨x, hx, hxy⟩ := List.mem_map.mp hy
      subst hxy
      exact upsertFun_idem cid c x
  | none =>
      have h1 : upsertSchedRow db cid c =
          { db with scheduling := db.scheduling ++ [updRow cid c] } := by
        unfold upsertSchedRow
        rw [hs]
      have h2 : findSched { db with scheduling := db.scheduling ++ [updRow cid c] } cid =
          some (updRow cid c) := by
        unfold findSched at hs ⊢
        dsimp only
        rw [List.find?_append, hs, Option.none_or, List.find?_cons_of_pos _ (by simp [updRow])]
      rw [h1]
      unfold upsertSchedRow
      rw [h2]
      dsimp only
      congr 1
      rw [List.map_append]
      have hl : db.scheduling.map (upsertFun cid c) = db.scheduling := by
        apply map_id_of_mem
        intro x hx
        have hb := List.find?_eq_none.mp hs x hx
        simp only [Bool.not_eq_true] at hb
        unfold upsertFun
        rw [hb]
        rfl
      rw [hl]
      have hr : [updRow cid c].map (upsertFun cid c) = [updRow cid c] := by
        rw [List.map_singleton]
        unfold upsertFun
        rw [show ((updRow cid c).card_id == cid) = true by simp [updRow]]
        rfl
      rw [hr]

theorem update_card_in_db_idem (uuid : String) (c : SchedCard) (db : Db) :
    update_card_in_db uuid c (update_card_in_db uuid c db) = update_card_in_db uuid c db := by
  cases hf : db.cards.find? (fun r => r.card_uuid == uuid) with
  | none =>
      have hinner : update_card_in_db uuid c db = db := by
        unfold update_card_in_db
        rw [hf]
      rw [hinner]
      exact hinner
  | some r =>
      have hinner : update_card_in_db uuid c db = upsertSchedRow db r.id c := by
        unfold update_card_in_db
        rw [hf]
      rw [hinner]
      unfold update_card_in_db
      rw [upsertSchedRow_cards db r.id c, hf]
      exact upsertSchedRow_idem db r.id c

theorem ensureCardRow_wellKeyed (c : CardData) (db : Db) (h : WellKeyed db) :
    WellKeyed (ensureCardRow c db).2 := by
  obtain ⟨h1, h2, h3, h4⟩ := h
  unfold ensureCardRow
  cases hf : db.cards.find? (fun r => r.card_uuid == c.card_uuid) with
  | some r => exact ⟨h1, h2, h3, h4⟩
  | none =>
      dsimp only
      refine ⟨?_, ?_, h3, ?_⟩
      · rw [List.map_append, List.nodup_append]
        refine ⟨h1, by rw [List.map_singleton]; exact List.nodup_singleton _, ?_⟩
        intro x hx hx2
        rw [List.map_singleton, List.mem_singleton] at hx2
        subst hx2
        obtain ⟨rr, hrr, hrr2⟩ := List.mem_map.mp hx
        have hb := List.find?_eq_none.mp hf rr hrr
        rw [hrr2] at hb
        simp at hb
      · rw [List.map_append, List.nodup_append]
        refine ⟨h2, by rw [List.map_singleton]; exact List.nodup_singleton _, ?_⟩
        intro x hx hx2
        rw [List.map_singleton, List.mem_singleton] at hx2
        subst hx2
        obtain ⟨rr, hrr, hrr2⟩ := List.mem_map.mp hx
        have := h4 rr hrr
        rw [hrr2] at this
        exact absurd this (lt_irrefl _)
      · intro r hr
        rw [List.mem_append, List.mem_singleton] at hr
        rcases hr with hr | hr
        · exact Nat.lt_succ_of_lt (h4 r hr)
        · rw [hr]
          exact Nat.lt_succ_self _

theorem insertSeed_wellKeyed (db : Db) (cid : Nat) (now : Int) (h : WellKeyed db)
    (hnone : findSched db cid = none) : WellKeyed (insertSeed db cid now) := by
  obtain ⟨h1, h2, h3, h4⟩ := h
  refine ⟨h1, h2, ?_, h4⟩
  unfold insertSeed
  dsimp only
  rw [List.map_append, List.nodup_append]
  refine ⟨h3, by rw [List.map_singleton]; exact List.nodup_singleton _, ?_⟩
  intro x hx hx2
  rw [List.map_singleton, List.mem_singleton] at hx2
  subst hx2
  obtain ⟨ss, hss, hss2⟩ := List.mem_map.mp hx
  have hb := List.find?_eq_none.mp hnone ss hss
  rw [hss2] at hb
  simp [seedRow] at hb

theorem upsertSchedRow_wellKeyed (db : Db) (cid : Nat) (c : SchedCard) (h : WellKeyed db) :
    WellKeyed (upsertSchedRow db cid c) := by
  obtain ⟨h1, h2, h3, h4⟩ := h
  unfold upsertSchedRow
  cases hs : findSched db cid with
  | some s0 =>
      dsimp only
      refine ⟨h1, h2, ?_, h4⟩
      have hmm : (db.scheduling.map (upsertFun cid c)).map (fun s => s.card_id) =
          db.scheduling.map (fun s => s.card_id) := by
        rw [List.map_map]
        apply List.map_congr_left
        intro s hsmem
        show (upsertFun cid c s).card_id = s.card_id
        unfold upsertFun
        by_cases hc : s.card_id = cid
        · simp [hc, updRow]
        · simp [hc]
      rw [hmm]
      exact h3
  | none =>
      dsimp only
      refine ⟨h1, h2, ?_, h4⟩
      rw [List.map_append, List.nodup_append]
      refine ⟨h3, by rw [List.map_singleton]; exact List.nodup_singleton _, ?_⟩
      intro x hx hx2
      rw [List.map_singleton, List.mem_singleton] at hx2
      subst hx2
      obtain ⟨ss, hss, hss2⟩ := List.mem_map.mp hx
      have hb := List.find?_eq_none.mp hs ss hss
      rw [hss2] at hb
      simp [updRow] at hb

theorem update_card_in_db_wellKeyed (uuid : String) (c : SchedCard) (db : Db)
    (h : WellKeyed db) : WellKeyed (update_card_in_db uuid c db) := by
  unfold update_card_in_db
  cases hf : db.cards.find? (fun r => r.card_uuid == uuid) with
  | none => exact h
  | some r => exact upsertSchedRow_wellKeyed db r.id c h

theorem randomCore_wellKeyed (pick : CardData) (db : Db) (now : Int) (h : WellKeyed db) :
    WellKeyed (randomCore pick db now).2 := by
  simp only [randomCore]
  cases hs : findSched (ensureCardRow pick db).2 (ensureCardRow pick db).1 with
  | some s0 => exact ensureCardRow_wellKeyed pick db h
  | none => exact insertSeed_wellKeyed _ _ now (ensureCardRow_wellKeyed pick db h) hs

theorem ankiFallbackCore_wellKeyed (deck : List CardData) (pick : CardData) (db : Db)
    (now : Int) (w : Bool) (h : WellKeyed db) :
    WellKeyed (ankiFallbackCore deck pick db now w).2.1 := by
  simp only [ankiFallbackCore]
  cases hs : findSched (ensureCardRow pick db).2 (ensureCardRow pick db).1 with
  | some s0 => exact ensureCardRow_wellKeyed pick db h
  | none => exact insertSeed_wellKeyed _ _ now (ensureCardRow_wellKeyed pick db h) hs

theorem random_select_card_wellKeyed (deck : List CardData) (db : Db) (now : Int) (rix : Nat)
    (h : WellKeyed db) : WellKeyed (random_select_card deck db now rix).2 := by
  cases deck with
  | nil => exact h
  | cons d ds => exact randomCore_wellKeyed _ db now h

theorem anki_select_card_wellKeyed (deck : List CardData) (db : Db) (now : Int) (rix : Nat)
    (h : WellKeyed db) : WellKeyed (anki_select_card deck db now rix).2.1 := by
  have hfb : ∀ w, WellKeyed (ankiFallback deck db now rix w).2.1 := by
    intro w
    cases deck with
    | nil => exact h
    | cons d ds => exact ankiFallbackCore_wellKeyed _ _ db now w h
  simp only [anki_select_card]
  cases hm : minDueRow db now with
  | none => exact hfb false
  | some r =>
      dsimp only
      cases hf : deck.find? (fun c => c.card_uuid == r.1.card_uuid) with
      | some cd => exact h
      | none =>
          cases hh : deck.head? with
          | none => exact h
          | some c0 => exact hfb _

theorem get_card_by_name_wellKeyed (deck : List CardData) (name : String) (db : Db)
    (now : Int) (h : WellKeyed db) : WellKeyed (get_card_by_name deck name db now).2 := by
  simp only [get_card_by_name]
  cases hf : deck.find? (fun c => lowerStr c.card_name == lowerStr name) with
  | none => exact h
  | some cd =>
      dsimp only
      cases hs : findSched (ensureCardRow cd db).2 (ensureCardRow cd db).1 with
      | some s0 => exact ensureCardRow_wellKeyed cd db h
      | none => exact ensureCardRow_wellKeyed cd db h

theorem ensureCardRow_stable (pick : CardData) (db db' : Db)
    (hcards : db'.cards = (ensureCardRow pick db).2.cards) :
    ensureCardRow pick db' = ((ensureCardRow pick db).1, db') := by
  cases hf : db.cards.find? (fun r => r.card_uuid == pick.card_uuid) with
  | some r =>
      have hc : db'.cards = db.cards := by
        rw [hcards]
        unfold ensureCardRow
        rw [hf]
      unfold ensureCardRow
      rw [hc, hf]
  | none =>
      have hc : db'.cards =
          db.cards ++ [⟨db.nextId, pick.card_uuid, pick.deck_name, pick.card_name⟩] := by
        rw [hcards]
        unfold ensureCardRow
        rw [hf]
      unfold ensureCardRow
      rw [hc, List.find?_append, hf, Option.none_or,
        List.find?_cons_of_pos _ (by simp)]

theorem randomCore_seed_twice (pick : CardData) (db : Db) (now : Int)
    (huns : findSched (ensureCardRow pick db).2 (ensureCardRow pick db).1 = none) :
    randomCore pick (randomCore pick db now).2 now = randomCore pick db now ∧
    ((randomCore pick db now).2.scheduling.filter
      (fun s => s.card_id == (ensureCardRow pick db).1)).length = 1 := by
  have h1 : randomCore pick db now =
      (Outcome.ok pick (seedCard now),
       insertSeed (ensureCardRow pick db).2 (ensureCardRow pick db).1 now) := by
    simp only [randomCore, huns]
  constructor
  · rw [h1]
    have hst := ensureCardRow_stable pick db
      (insertSeed (ensureCardRow pick db).2 (ensureCardRow pick db).1 now) rfl
    have hfs : findSched
        (insertSeed (ensureCardRow pick db).2 (ensureCardRow pick db).1 now)
        (ensureCardRow pick db).1 =
        some (seedRow (ensureCardRow pick db).1 now) := by
      unfold findSched at huns ⊢
      unfold insertSeed
      dsimp only
      rw [List.find?_append, huns, Option.none_or, List.find?_cons_of_pos _ (by simp [seedRow])]
    simp only [randomCore, hst, hfs]
    rfl
  · rw [h1]
    unfold insertSeed
    dsimp only
    rw [List.filter_append]
    have hnil : (ensureCardRow pick db).2.scheduling.filter
        (fun s => s.card_id == (ensureCardRow pick db).1) = [] := by
      rw [List.filter_eq_nil_iff]
      intro a ha
      unfold findSched at huns
      exact List.find?_eq_none.mp huns a ha
    rw [hnil]
    have hone : List.filter (fun s => s.card_id == (ensureCardRow pick db).1)
        [seedRow (ensureCardRow pick db).1 now] = [seedRow (ensureCardRow pick db).1 now] := by
      simp [seedRow]
    rw [hone]
    rfl

/-- C6: the scheduling store keeps at most one row per card identity
(unique uuids and rowids in `cards`, unique `card_id` in `scheduling`,
all ids below the autoincrement counter), and this invariant is
preserved by the upsert and by all three selectors; the upsert is
idempotent; and seeding an unseen card twice in sequence returns the same
(card, state, store) both times with exactly one scheduling row for that
card afterwards. -/
theorem scheduling_row_unique (db : Db) (uuid : String) (c : SchedCard)
    (deck : List CardData) (name : String) (now : Int) (rix : Nat)
    (hw : WellKeyed db) :
    WellKeyed (update_card_in_db uuid c db) ∧
    WellKeyed (random_select_card deck db now rix).2 ∧
    WellKeyed (anki_select_card deck db now rix).2.1 ∧
    WellKeyed (get_card_by_name deck name db now).2 ∧
    update_card_in_db uuid c (update_card_in_db uuid c db) = update_card_in_db uuid c db ∧
    ∀ d ds, deck = d :: ds →
      findSched (ensureCardRow (deck.getD (rix % deck.length) default) db).2
          (ensureCardRow (deck.getD (rix % deck.length) default) db).1 = none →
      random_select_card deck (random_select_card deck db now rix).2 now rix =
        random_select_card deck db now rix ∧
      ((random_select_card deck db now rix).2.scheduling.filter
          (fun s => s.card_id ==
            (ensureCardRow (deck.getD (rix % deck.length) default) db).1)).length = 1 := by
  refine ⟨update_card_in_db_wellKeyed uuid c db hw,
    random_select_card_wellKeyed deck db now rix hw,
    anki_select_card_wellKeyed deck db now rix hw,
    get_card_by_name_wellKeyed deck name db now hw,
    update_card_in_db_idem uuid c db, ?_⟩
  intro d ds hdeck huns
  subst hdeck
  have htw := randomCore_seed_twice ((d :: ds).getD (rix % (d :: ds).length) default) db now huns
  simpa only [random_select_card] using htw

/-- C6 witness: a concrete store with one seen card; the upsert is
applied twice and the unseen card "uy" is seeded twice. -/
theorem scheduling_row_unique_w :
    update_card_in_db "ux" ⟨1, 1, 5/2, some 9⟩
        (update_card_in_db "ux" ⟨1, 1, 5/2, some 9⟩
          ⟨[⟨1, "ux", "d", "X"⟩], [⟨1, 2, 1, 5/2, some 9⟩], 2⟩) =
      update_card_in_db "ux" ⟨1, 1, 5/2, some 9⟩
        ⟨[⟨1, "ux", "d", "X"⟩], [⟨1, 2, 1, 5/2, some 9⟩], 2⟩ ∧
    random_select_card [⟨"uy", "d", "Y"⟩]
        (random_select_card [⟨"uy", "d", "Y"⟩]
          ⟨[⟨1, "ux", "d", "X"⟩], [⟨1, 2, 1, 5/2, some 9⟩], 2⟩ 3 0).2 3 0 =
      random_select_card [⟨"uy", "d", "Y"⟩]
        ⟨[⟨1, "ux", "d", "X"⟩], [⟨1, 2, 1, 5/2, some 9⟩], 2⟩ 3 0 := by
  have h := scheduling_row_unique ⟨[⟨1, "ux", "d", "X"⟩], [⟨1, 2, 1, 5/2, some 9⟩], 2⟩ "ux"
    ⟨1, 1, 5/2, some 9⟩ [⟨"uy", "d", "Y"⟩] "n" 3 0
    (by unfold WellKeyed; refine ⟨?_, ?_, ?_, ?_⟩ <;> decide)
  exact ⟨h.2.2.2.2.1, (h.2.2.2.2.2 ⟨"uy", "d", "Y"⟩ [] rfl (by rfl)).1⟩
